import Mathlib

/-
Verification of the byte-patch ledger of x64dbg (src/x64_dbg_dbg/patches.cpp).

The ledger `patches` is a std::map from a module-identity hash to a PATCHINFO
record.  We embed it as an association list ordered by insertion position
(std::map iterates keys in order; insertion keeps the sorted position), with
the external collaborators (debugger session, module table, memory writer,
file mapper) abstracted into explicit environment records.  Machine `uint`
arithmetic (64-bit) is modelled on Nat with explicit reduction mod 2^64.
Memory writes and file-system actions are recorded as explicit effect lists.
-/

set_option autoImplicit false

namespace Patches

/-- Width of the C++ `uint` (= `duint`, pointer-sized, 64-bit build). -/
def UINT_WIDTH : Nat := 2 ^ 64

/-- The value of `~0` compared against `end` in `patchdelrange` (all-ones). -/
def UINT_MAX : Nat := 2 ^ 64 - 1

/-- Wrapping addition of two `uint` values. -/
def uadd (a b : Nat) : Nat := (a + b) % UINT_WIDTH

/-- Wrapping subtraction `a - b` of two `uint` values. -/
def usub (a b : Nat) : Nat := (a + (UINT_WIDTH - b % UINT_WIDTH)) % UINT_WIDTH

/-- One patch record (struct PATCHINFO of addrinfo.h): module name, the
module-relative offset `addr`, the original byte and the current byte. -/
structure PATCHINFO where
  mod : String
  addr : Nat
  oldbyte : Nat
  newbyte : Nat
deriving Repr, DecidableEq, Inhabited

/-- The ledger: `std::map<uint, PATCHINFO>` as a key-sorted association list. -/
abbrev PatchesInfo := List (Nat × PATCHINFO)

/-- External collaborators used by the ledger operations: debugger session
state, memory readability, and the module table. -/
structure Env where
  isDebugging : Bool
  isReadable : Nat → Bool
  modBaseFromAddr : Nat → Nat
  modNameFromAddr : Nat → String
  modHashFromVA : Nat → Nat
  modBaseFromName : String → Nat

/-- `patches.find(key)`: first record stored under `key`. -/
def pfind (key : Nat) : PatchesInfo → Option PATCHINFO
  | [] => none
  | (k, p) :: rest => if k = key then some p else pfind key rest

/-- `patches.erase(found)`: drop the (unique) entry with the given key. -/
def perase (key : Nat) : PatchesInfo → PatchesInfo
  | [] => []
  | (k, p) :: rest => if k = key then rest else (k, p) :: perase key rest

/-- `found->second = v`: replace the value stored under `key`. -/
def preplace (key : Nat) (v : PATCHINFO) : PatchesInfo → PatchesInfo
  | [] => []
  | (k, p) :: rest => if k = key then (k, v) :: rest else (k, p) :: preplace key v rest

/-- `patches.insert(std::make_pair(key, v))` for a key not present: insert at
the key-ordered position. -/
def pinsert (key : Nat) (v : PATCHINFO) : PatchesInfo → PatchesInfo
  | [] => [(key, v)]
  | (k, p) :: rest =>
      if key < k then (key, v) :: (k, p) :: rest else (k, p) :: pinsert key v rest

/-- `_stricmp(a, b) == 0`: case-insensitive string equality, modelled by
comparing the character sequences lowered characterwise. -/
def striEq (a b : String) : Bool := a.data.map Char.toLower == b.data.map Char.toLower

/-- `patchset(addr, oldbyte, newbyte)` of patches.cpp, acting on an explicit
ledger; returns the C++ boolean result with the updated ledger. -/
def patchset (env : Env) (ps : PatchesInfo) (addr oldbyte newbyte : Nat) :
    Bool × PatchesInfo :=
  if !env.isDebugging || !env.isReadable addr then (false, ps)
  else if oldbyte = newbyte then (true, ps)
  else
    match pfind (env.modHashFromVA addr) ps with
    | some found =>
        if found.oldbyte = newbyte then
          (true, perase (env.modHashFromVA addr) ps)
        else
          (true, preplace (env.modHashFromVA addr)
            { mod := env.modNameFromAddr addr
              addr := usub addr (env.modBaseFromAddr addr)
              oldbyte := found.oldbyte
              newbyte := newbyte } ps)
    | none =>
        (true, pinsert (env.modHashFromVA addr)
          { mod := env.modNameFromAddr addr
            addr := usub addr (env.modBaseFromAddr addr)
            oldbyte := oldbyte
            newbyte := newbyte } ps)

/-- `patchget(addr, patch)`: the boolean result together with the record
written through the output pointer (when `wantPatch` models a non-null
pointer). -/
def patchget (env : Env) (ps : PatchesInfo) (addr : Nat) (wantPatch : Bool) :
    Bool × Option PATCHINFO :=
  if !env.isDebugging then (false, none)
  else
    match pfind (env.modHashFromVA addr) ps with
    | none => (false, none)
    | some found =>
        if wantPatch then
          (true, some { found with addr := uadd found.addr (env.modBaseFromAddr addr) })
        else (decide (found.oldbyte ≠ found.newbyte), none)

/-- `patchdel(addr, restore)`: result, updated ledger, and the list of
single-byte memory writes `(address, value)` performed by `memwrite`. -/
def patchdel (env : Env) (ps : PatchesInfo) (addr : Nat) (restore : Bool) :
    Bool × PatchesInfo × List (Nat × Nat) :=
  if !env.isDebugging then (false, ps, [])
  else
    match pfind (env.modHashFromVA addr) ps with
    | none => (false, ps, [])
    | some found =>
        (true, perase (env.modHashFromVA addr) ps,
          if restore then [(uadd found.addr (env.modBaseFromAddr addr), found.oldbyte)]
          else [])

/-- The erase-while-iterating loop of `patchdelrange`: left-to-right over the
map, dropping every entry matching the range test (all entries when
`bDelAll`), emitting a restore write per dropped entry when requested. -/
def delrangeLoop (bDelAll : Bool) (startOfs endOfs modbase : Nat) (restore : Bool) :
    PatchesInfo → PatchesInfo × List (Nat × Nat)
  | [] => ([], [])
  | (k, p) :: rest =>
      let r := delrangeLoop bDelAll startOfs endOfs modbase restore rest
      if bDelAll || (decide (startOfs ≤ p.addr) && decide (p.addr < endOfs)) then
        (r.1, (if restore then [(uadd p.addr modbase, p.oldbyte)] else []) ++ r.2)
      else ((k, p) :: r.1, r.2)

/-- `patchdelrange(start, end, restore)`: updated ledger plus the restore
writes performed. -/
def patchdelrange (env : Env) (ps : PatchesInfo) (startAddr endAddr : Nat)
    (restore : Bool) : PatchesInfo × List (Nat × Nat) :=
  if !env.isDebugging then (ps, [])
  else
    if env.modBaseFromAddr startAddr ≠ env.modBaseFromAddr endAddr then (ps, [])
    else
      delrangeLoop (decide (startAddr = 0) && decide (endAddr = UINT_MAX))
        (usub startAddr (env.modBaseFromAddr startAddr))
        (usub endAddr (env.modBaseFromAddr startAddr))
        (env.modBaseFromAddr startAddr) restore ps

/-- The erase-while-iterating loop of `patchclear(mod)`. -/
def clearLoop (m : String) : PatchesInfo → PatchesInfo
  | [] => []
  | (k, p) :: rest =>
      if striEq p.mod m then clearLoop m rest else (k, p) :: clearLoop m rest

/-- `patchclear(mod)`: `none` models a null pointer argument. -/
def patchclear (ps : PatchesInfo) (modArg : Option String) : PatchesInfo :=
  match modArg with
  | none => []
  | some m => if m = "" then [] else clearLoop m ps

/-- Modelled from the spec and the struct declarations that patches.cpp
compiles against (addrinfo.h is not part of the fragment): `sizeof(PATCHINFO)`
on the 64-bit build — a 256-byte `mod` name, an 8-byte `uint addr`, two
byte fields, padded to 8-byte alignment: 256 + 8 + 1 + 1 + 6 = 272. -/
def sizeofPATCHINFO : Nat := 272

/-- Modelled from the spec and the struct declarations that patches.cpp
compiles against (addrinfo.h is not part of the fragment): `sizeof(LOOPSINFO)`
on the 64-bit build — the loop-bracket record with two 8-byte `uint`
addresses, two 4-byte `int` fields and a 256-byte `mod` name:
8 + 8 + 4 + 4 + 256 = 280. -/
def sizeofLOOPSINFO : Nat := 280

/-- `patchenum(patcheslist, cbsize)`: `wantList`/`wantSize` model non-null
output pointers; the result carries the value written to `*cbsize` (when
written) and the records written to `patcheslist` (when filled). -/
def patchenum (env : Env) (ps : PatchesInfo) (wantList wantSize : Bool) :
    Bool × Option Nat × List PATCHINFO :=
  if !env.isDebugging then (false, none, [])
  else if !wantList && !wantSize then (false, none, [])
  else if !wantList && wantSize then (true, some (ps.length * sizeofLOOPSINFO), [])
  else
    (true, none,
      ps.map fun kp => { kp.2 with addr := uadd kp.2.addr (env.modBaseFromName kp.2.mod) })

/-- External collaborators of `patchfile`: module table, module path lookup,
and the success of the fallible file operations. -/
structure FileEnv where
  modBaseFromName : String → Nat
  getModuleFileName : Nat → Option String
  copyFileOk : Bool
  staticFileLoadOk : Bool
  convertVAtoFileOffset : Nat → Nat → Option Nat
  staticFileUnloadOk : Bool

/-- Observable actions of `patchfile`, in program order: a `CopyFileA` call,
a byte written into the mapped file copy, a message written into the caller's
error buffer, and a message written through a NULL error pointer. -/
inductive FileEffect where
  | copyFile (src dst : String)
  | writeByte (fileOfs value : Nat)
  | writeError (msg : String)
  | nullErrorWrite (msg : String)
deriving Repr, DecidableEq

/-- The `if(error) strcpy/sprintf(error, msg)` idiom of patchfile. -/
def errEff (hasError : Bool) (msg : String) : List FileEffect :=
  if hasError then [FileEffect.writeError msg] else []

/-- The patch loop of `patchfile`: translate each record's address to a file
offset, skipping untranslatable ones, writing `newbyte` otherwise; returns
the patched count and the write effects in order. -/
def patchLoop (env : FileEnv) (modbase : Nat) : List PATCHINFO → Nat × List FileEffect
  | [] => (0, [])
  | p :: rest =>
      match env.convertVAtoFileOffset modbase p.addr with
      | none => patchLoop env modbase rest
      | some ofs =>
          let r := patchLoop env modbase rest
          (r.1 + 1, FileEffect.writeByte ofs p.newbyte :: r.2)

/-- `patchfile(patchlist, count, szFileName, error)`: the returned int and
the effect trace.  `hasError` models a non-null `error` argument.  Note the
`StaticFileLoad` failure path of the source calls `strcpy(error, ...)`
without the null check used on every other path; the model records that as
`nullErrorWrite` when `hasError` is false. -/
def patchfile (env : FileEnv) (patchlist : List PATCHINFO) (fileName : String)
    (hasError : Bool) : Int × List FileEffect :=
  match patchlist with
  | [] => (-1, errEff hasError "no patches to apply")
  | first :: _ =>
      if patchlist.any (fun p => !striEq p.mod first.mod) then
        (-1, errEff hasError ("not all patches are in module " ++ first.mod))
      else if env.modBaseFromName first.mod = 0 then
        (-1, errEff hasError ("failed to get base of module " ++ first.mod))
      else
        match env.getModuleFileName (env.modBaseFromName first.mod) with
        | none => (-1, errEff hasError ("failed to get module path of module " ++ first.mod))
        | some origName =>
            if !env.copyFileOk then
              (-1, FileEffect.copyFile origName fileName ::
                errEff hasError "failed to make a copy of the original file (patch target is in use?)")
            else if env.staticFileLoadOk then
              if !env.staticFileUnloadOk then
                (-1, FileEffect.copyFile origName fileName ::
                  (patchLoop env (env.modBaseFromName first.mod) patchlist).2 ++
                    errEff hasError "StaticFileUnload failed")
              else
                (Int.ofNat (patchLoop env (env.modBaseFromName first.mod) patchlist).1,
                  FileEffect.copyFile origName fileName ::
                    (patchLoop env (env.modBaseFromName first.mod) patchlist).2)
            else
              (-1, [FileEffect.copyFile origName fileName,
                if hasError then FileEffect.writeError "StaticFileLoad failed"
                else FileEffect.nullErrorWrite "StaticFileLoad failed"])

/-- The byte writes of an effect trace, in order. -/
def writesOf : List FileEffect → List (Nat × Nat)
  | [] => []
  | FileEffect.writeByte o v :: rest => (o, v) :: writesOf rest
  | _ :: rest => writesOf rest

/-- The `CopyFileA` calls of an effect trace, in order. -/
def copiesOf : List FileEffect → List (String × String)
  | [] => []
  | FileEffect.copyFile s d :: rest => (s, d) :: copiesOf rest
  | _ :: rest => copiesOf rest

/-- A simple environment: one module "app.exe" at base 0, everything readable,
hash = address. -/
def envW : Env :=
  { isDebugging := true
    isReadable := fun _ => true
    modBaseFromAddr := fun _ => 0
    modNameFromAddr := fun _ => "app.exe"
    modHashFromVA := fun a => a
    modBaseFromName := fun _ => 0 }

/-- Fold a sequence of `patchset` calls for one address over the ledger,
keeping only the resulting ledger. -/
def runSets (env : Env) (addr : Nat) (calls : List (Nat × Nat)) (ps : PatchesInfo) :
    PatchesInfo :=
  calls.foldl (fun s c => (patchset env s addr c.1 c.2).2) ps

/-- Environment with two modules: "m.dll" loaded at base 4096 and "n.dll"
loaded at base 32768, each 4096 bytes. -/
def envC2 : Env :=
  { isDebugging := true
    isReadable := fun _ => true
    modBaseFromAddr := fun a =>
      if 4096 ≤ a ∧ a < 8192 then 4096
      else if 32768 ≤ a ∧ a < 36864 then 32768
      else 0
    modNameFromAddr := fun a =>
      if 4096 ≤ a ∧ a < 8192 then "m.dll"
      else if 32768 ≤ a ∧ a < 36864 then "n.dll"
      else ""
    modHashFromVA := fun a =>
      if 4096 ≤ a ∧ a < 8192 then 1000 + (a - 4096)
      else if 32768 ≤ a ∧ a < 36864 then 2000 + (a - 32768)
      else a
    modBaseFromName := fun s =>
      if s = "m.dll" then 4096 else if s = "n.dll" then 32768 else 0 }

/-- A ledger with one record in each of the two modules, both at
module-relative offset 16. -/
def psC2 : PatchesInfo :=
  [(1016, { mod := "m.dll", addr := 16, oldbyte := 1, newbyte := 2 }),
   (2016, { mod := "n.dll", addr := 16, oldbyte := 3, newbyte := 4 })]

/-- Environment with one module "app.exe" loaded at base 0x400000. -/
def envC4 : Env :=
  { isDebugging := true
    isReadable := fun _ => true
    modBaseFromAddr := fun a => if 4194304 ≤ a ∧ a < 5242880 then 4194304 else 0
    modNameFromAddr := fun a => if 4194304 ≤ a ∧ a < 5242880 then "app.exe" else ""
    modHashFromVA := fun a => a
    modBaseFromName := fun s => if s = "app.exe" then 4194304 else 0 }

/-- A ledger with a single record of "app.exe" at offset 0x1000, original
byte 0x90. -/
def psC4 : PatchesInfo :=
  [(7, { mod := "app.exe", addr := 4096, oldbyte := 144, newbyte := 204 })]

/-- The mutating ledger operations, for stating reachability invariants. -/
inductive PatchOp where
  | set (addr oldbyte newbyte : Nat)
  | del (addr : Nat) (restore : Bool)
  | delrange (startAddr endAddr : Nat) (restore : Bool)
  | clear (modArg : Option String)

/-- Apply one operation to the ledger, discarding results and memory writes. -/
def applyOp (env : Env) (ps : PatchesInfo) : PatchOp → PatchesInfo
  | PatchOp.set a o n => (patchset env ps a o n).2
  | PatchOp.del a r => (patchdel env ps a r).2.1
  | PatchOp.delrange s e r => (patchdelrange env ps s e r).1
  | PatchOp.clear m => patchclear ps m

/-- Run a sequence of operations starting from the empty ledger. -/
def runOps (env : Env) (ops : List PatchOp) : PatchesInfo :=
  ops.foldl (applyOp env) []

/-- The §3 invariant: every live record's original byte differs from its
current byte. -/
def ledgerWF (ps : PatchesInfo) : Prop :=
  ∀ kp ∈ ps, kp.2.oldbyte ≠ kp.2.newbyte

/-- File environment with module "app.exe" at base 0x400000, a resolvable
path, successful copy/load/unload, and one untranslatable virtual address
(0x40000A). -/
def envC7 : FileEnv :=
  { modBaseFromName := fun s => if s = "app.exe" then 4194304 else 0
    getModuleFileName := fun b => if b = 4194304 then some "app.exe.path" else none
    copyFileOk := true
    staticFileLoadOk := true
    convertVAtoFileOffset := fun _ va => if va = 4194314 then none else some (va - 4194304 + 512)
    staticFileUnloadOk := true }

/-- A record of "app.exe" at the untranslatable address. -/
def pC7a : PATCHINFO := { mod := "app.exe", addr := 4194314, oldbyte := 1, newbyte := 2 }

/-- A record of "App.EXE" (same module up to case) at a translatable
address. -/
def pC7b : PATCHINFO := { mod := "App.EXE", addr := 4194320, oldbyte := 3, newbyte := 4 }

/-- A record of a different module. -/
def pC6other : PATCHINFO := { mod := "other.dll", addr := 4194321, oldbyte := 5, newbyte := 6 }

/-- File environment identical to `envC7` except that `StaticFileLoad`
fails. -/
def envC10 : FileEnv :=
  { modBaseFromName := fun s => if s = "app.exe" then 4194304 else 0
    getModuleFileName := fun b => if b = 4194304 then some "app.exe.path" else none
    copyFileOk := true
    staticFileLoadOk := false
    convertVAtoFileOffset := fun _ _ => none
    staticFileUnloadOk := true }

/- ------------------------------------------------------------------ -/
/- Theorems                                                            -/
/- ------------------------------------------------------------------ -/

/-- C8: with an active session and `addr` readable, `patchset addr b b`
returns success and leaves the ledger exactly as it was: no record is
created, altered or deleted. -/
theorem C8_noop_patch (env : Env) (ps : PatchesInfo) (addr b : Nat)
    (hdbg : env.isDebugging = true) (hread : env.isReadable addr = true) :
    patchset env ps addr b b = (true, ps) := by
  simp [patchset, hdbg, hread]

/-- Witness for C8 at a concrete input. -/
theorem C8_noop_patch_witness : patchset envW [] 4 7 7 = (true, []) :=
  C8_noop_patch envW [] 4 7 rfl rfl

/-- If `key` is absent, looking it up after `pinsert key v` finds `v`. -/
theorem pfind_pinsert (key : Nat) (v : PATCHINFO) (ps : PatchesInfo)
    (hnone : pfind key ps = none) :
    pfind key (pinsert key v ps) = some v := by
  induction ps with
  | nil => simp [pinsert, pfind]
  | cons kp rest ih =>
      obtain ⟨k, p⟩ := kp
      have hk : ¬k = key := by
        intro h
        simp [pfind, h] at hnone
      have hrest : pfind key rest = none := by
        simpa [pfind, hk] using hnone
      by_cases h : key < k
      · simp [pinsert, h, pfind]
      · simp [pinsert, h, pfind, hk, ih hrest]

/-- Erasing a freshly inserted key from a ledger that did not contain it
restores the ledger. -/
theorem perase_pinsert (key : Nat) (v : PATCHINFO) (ps : PatchesInfo)
    (hnone : pfind key ps = none) :
    perase key (pinsert key v ps) = ps := by
  induction ps with
  | nil => simp [pinsert, perase]
  | cons kp rest ih =>
      obtain ⟨k, p⟩ := kp
      have hk : ¬k = key := by
        intro h
        simp [pfind, h] at hnone
      have hrest : pfind key rest = none := by
        simpa [pfind, hk] using hnone
      by_cases h : key < k
      · simp [pinsert, h, perase, hk]
      · simp [pinsert, h, perase, hk, ih hrest]

/-- `patchset` on a fresh address inserts the candidate record as-is. -/
theorem patchset_insert (env : Env) (ps : PatchesInfo) (addr o n : Nat)
    (hdbg : env.isDebugging = true) (hread : env.isReadable addr = true)
    (hon : o ≠ n)
    (hnone : pfind (env.modHashFromVA addr) ps = none) :
    patchset env ps addr o n =
      (true, pinsert (env.modHashFromVA addr)
        { mod := env.modNameFromAddr addr
          addr := usub addr (env.modBaseFromAddr addr)
          oldbyte := o
          newbyte := n } ps) := by
  simp [patchset, hdbg, hread, hon, hnone]

/-- `patchset` whose new byte equals the stored original erases the record. -/
theorem patchset_collapse (env : Env) (ps : PatchesInfo) (addr o n : Nat)
    (found : PATCHINFO)
    (hdbg : env.isDebugging = true) (hread : env.isReadable addr = true)
    (hon : o ≠ n)
    (hfound : pfind (env.modHashFromVA addr) ps = some found)
    (hundo : found.oldbyte = n) :
    patchset env ps addr o n = (true, perase (env.modHashFromVA addr) ps) := by
  simp [patchset, hdbg, hread, hon, hfound, hundo]

/-- `patchset` on an address with a live record whose original differs from
the new byte consolidates: the stored original is kept, the new byte is
adopted. -/
theorem patchset_consolidate (env : Env) (ps : PatchesInfo) (addr o n : Nat)
    (found : PATCHINFO)
    (hdbg : env.isDebugging = true) (hread : env.isReadable addr = true)
    (hon : o ≠ n)
    (hfound : pfind (env.modHashFromVA addr) ps = some found)
    (hkeep : found.oldbyte ≠ n) :
    patchset env ps addr o n =
      (true, preplace (env.modHashFromVA addr)
        { mod := env.modNameFromAddr addr
          addr := usub addr (env.modBaseFromAddr addr)
          oldbyte := found.oldbyte
          newbyte := n } ps) := by
  simp [patchset, hdbg, hread, hon, hfound, hkeep]

/-- C5: with an active session, `addr` readable and no prior record for
`addr`, `set(addr, o, n)` followed by `set(addr, n, o)` (with `o ≠ n`)
leaves no record for `addr`; in fact the ledger is exactly restored. -/
theorem C5_selfundo (env : Env) (ps : PatchesInfo) (addr o n : Nat)
    (hdbg : env.isDebugging = true) (hread : env.isReadable addr = true)
    (hon : o ≠ n)
    (hnone : pfind (env.modHashFromVA addr) ps = none) :
    (patchset env (patchset env ps addr o n).2 addr n o).2 = ps ∧
    pfind (env.modHashFromVA addr)
      (patchset env (patchset env ps addr o n).2 addr n o).2 = none := by
  have h1 := patchset_insert env ps addr o n hdbg hread hon hnone
  have h2 : pfind (env.modHashFromVA addr) (patchset env ps addr o n).2 =
      some { mod := env.modNameFromAddr addr
             addr := usub addr (env.modBaseFromAddr addr)
             oldbyte := o
             newbyte := n } := by
    rw [h1]
    exact pfind_pinsert _ _ _ hnone
  have h3 := patchset_collapse env (patchset env ps addr o n).2 addr n o
    _ hdbg hread (Ne.symm hon) h2 rfl
  rw [h3, h1]
  rw [perase_pinsert _ _ _ hnone]
  exact ⟨rfl, hnone⟩

/-- If `key` is present, looking it up after `preplace key v` finds `v`. -/
theorem pfind_preplace (key : Nat) (v : PATCHINFO) (ps : PatchesInfo)
    (hsome : (pfind key ps).isSome) :
    pfind key (preplace key v ps) = some v := by
  induction ps with
  | nil => simp [pfind] at hsome
  | cons kp rest ih =>
      obtain ⟨k, p⟩ := kp
      by_cases hk : k = key
      · simp [preplace, hk, pfind]
      · have h : (pfind key rest).isSome := by simpa [pfind, hk] using hsome
        simp [preplace, hk, pfind, ih h]

/-- Chain consolidation: as long as a record with original `o1` is live at
the address and every further call has distinct old/new bytes and a new byte
different from `o1`, the record keeps original `o1` and its current byte is
the last call's new byte. -/
theorem runSets_keep_original (env : Env) (addr : Nat) (rest : List (Nat × Nat))
    (ps : PatchesInfo) (o1 : Nat) (r : PATCHINFO)
    (hdbg : env.isDebugging = true) (hread : env.isReadable addr = true)
    (hrest : ∀ c ∈ rest, c.1 ≠ c.2 ∧ c.2 ≠ o1)
    (hfound : pfind (env.modHashFromVA addr) ps = some r)
    (hold : r.oldbyte = o1) :
    ∃ r', pfind (env.modHashFromVA addr) (runSets env addr rest ps) = some r' ∧
      r'.oldbyte = o1 ∧ r'.newbyte = (rest.map Prod.snd).getLastD r.newbyte := by
  induction rest generalizing ps r with
  | nil => exact ⟨r, hfound, hold, rfl⟩
  | cons c rest ih =>
      obtain ⟨hcne, hco1⟩ := hrest c (List.mem_cons_self c rest)
      have hkeep : r.oldbyte ≠ c.2 := by rw [hold]; exact Ne.symm hco1
      have hstep := patchset_consolidate env ps addr c.1 c.2 r hdbg hread hcne hfound hkeep
      have hfound' : pfind (env.modHashFromVA addr)
          (preplace (env.modHashFromVA addr)
            { mod := env.modNameFromAddr addr
              addr := usub addr (env.modBaseFromAddr addr)
              oldbyte := r.oldbyte
              newbyte := c.2 } ps) =
          some { mod := env.modNameFromAddr addr
                 addr := usub addr (env.modBaseFromAddr addr)
                 oldbyte := r.oldbyte
                 newbyte := c.2 } :=
        pfind_preplace _ _ _ (by rw [hfound]; rfl)
      have hrun : runSets env addr (c :: rest) ps =
          runSets env addr rest (patchset env ps addr c.1 c.2).2 := rfl
      rw [hrun, hstep]
      obtain ⟨r', h1, h2, h3⟩ :=
        ih _ _ (fun d hd => hrest d (List.mem_cons_of_mem c hd)) hfound' (by simpa using hold)
      refine ⟨r', h1, h2, ?_⟩
      rw [List.map_cons, List.getLastD_cons, h3]

/-- C1 counterexample: with a successful no-op call in the sequence
(`set(addr, 5, 5)`, whose new byte 5 differs from the stored original 1),
the stored current byte stays 2 instead of becoming the last call's new
byte 5, so the claim as stated fails. -/
theorem C1_counterexample :
    (patchset envW [] 100 1 2).1 = true ∧
    (patchset envW (patchset envW [] 100 1 2).2 100 5 5).1 = true ∧
    (5 : Nat) ≠ 1 ∧
    pfind (envW.modHashFromVA 100)
      (patchset envW (patchset envW [] 100 1 2).2 100 5 5).2 =
      some { mod := "app.exe", addr := 100, oldbyte := 1, newbyte := 2 } ∧
    (2 : Nat) ≠ 5 := by
  decide

/-- C1 (amended): for an address with no prior record and a sequence of
successful calls `set(addr, o1, n1), …, set(addr, ok, nk)` in which every
call has `oi ≠ ni` and no later call's new byte equals the stored original
`o1`, the record stored for `addr` has `originalByte = o1` and
`currentByte = nk`; consolidation never replaces the original. -/
theorem C1_chain (env : Env) (addr o1 n1 : Nat) (rest : List (Nat × Nat))
    (ps : PatchesInfo)
    (hdbg : env.isDebugging = true) (hread : env.isReadable addr = true)
    (h1 : o1 ≠ n1)
    (hrest : ∀ c ∈ rest, c.1 ≠ c.2 ∧ c.2 ≠ o1)
    (hnone : pfind (env.modHashFromVA addr) ps = none) :
    ∃ r, pfind (env.modHashFromVA addr)
        (runSets env addr ((o1, n1) :: rest) ps) = some r ∧
      r.oldbyte = o1 ∧ r.newbyte = (rest.map Prod.snd).getLastD n1 := by
  have hins := patchset_insert env ps addr o1 n1 hdbg hread h1 hnone
  have hfound : pfind (env.modHashFromVA addr) (patchset env ps addr o1 n1).2 =
      some { mod := env.modNameFromAddr addr
             addr := usub addr (env.modBaseFromAddr addr)
             oldbyte := o1
             newbyte := n1 } := by
    rw [hins]
    exact pfind_pinsert _ _ _ hnone
  exact runSets_keep_original env addr rest _ o1 _ hdbg hread hrest hfound rfl

/-- Without restore, the `patchdelrange` loop is a pure filter on the range
test. -/
theorem delrangeLoop_norestore (bDelAll : Bool) (s e mb : Nat) (ps : PatchesInfo) :
    delrangeLoop bDelAll s e mb false ps =
      (ps.filter (fun kp =>
        !(bDelAll || (decide (s ≤ kp.2.addr) && decide (kp.2.addr < e)))), []) := by
  induction ps with
  | nil => rfl
  | cons kp rest ih =>
      obtain ⟨k, p⟩ := kp
      by_cases h : (bDelAll || (decide (s ≤ p.addr) && decide (p.addr < e))) = true
      · simp [delrangeLoop, h, List.filter_cons, ih]
        simp only [Bool.or_eq_true, Bool.and_eq_true, decide_eq_true_eq] at h
        have hc : ¬(bDelAll = false ∧ (p.addr < s ∨ e ≤ p.addr)) := by
          rintro ⟨hb, hr⟩
          rcases h with h | ⟨h1, h2⟩
          · rw [h] at hb; cases hb
          · omega
        rw [if_neg hc]
      · simp [delrangeLoop, h, List.filter_cons, ih]
        simp only [Bool.or_eq_true, Bool.and_eq_true, decide_eq_true_eq] at h
        push_neg at h
        obtain ⟨hb, hr⟩ := h
        have hc : bDelAll = false ∧ (p.addr < s ∨ e ≤ p.addr) := by
          refine ⟨by simpa using hb, by omega⟩
        rw [if_pos hc]

/-- A non-wildcard `patchdelrange` without restore filters out exactly the
entries whose module-relative offset lies in the converted range, regardless
of the entry's module. -/
theorem patchdelrange_norestore (env : Env) (ps : PatchesInfo) (startAddr endAddr : Nat)
    (hdbg : env.isDebugging = true)
    (hsame : env.modBaseFromAddr startAddr = env.modBaseFromAddr endAddr)
    (hnotall : ¬(startAddr = 0 ∧ endAddr = UINT_MAX)) :
    (patchdelrange env ps startAddr endAddr false).1 =
      ps.filter (fun kp =>
        !(decide (usub startAddr (env.modBaseFromAddr startAddr) ≤ kp.2.addr) &&
          decide (kp.2.addr < usub endAddr (env.modBaseFromAddr startAddr)))) := by
  have hb : (decide (startAddr = 0) && decide (endAddr = UINT_MAX)) = false := by
    rcases Decidable.em (startAddr = 0) with h0 | h0
    · have he : endAddr ≠ UINT_MAX := fun he => hnotall ⟨h0, he⟩
      simp [h0, he]
    · simp [h0]
  rw [patchdelrange, if_neg (by simp [hdbg]), if_neg (by simp [hsame]), hb,
    delrangeLoop_norestore]
  simp

/-- C2 counterexample: with modules "m.dll" (base 4096) and "n.dll" (base
32768) and a record of each at offset 16, `deleteRange(4112, 4128, false)`
resolves to module "m.dll" yet also deletes the record of "n.dll" because
only the offset, not the module, is tested; the claim as stated fails. -/
theorem C2_counterexample :
    envC2.modBaseFromAddr 4112 = 4096 ∧
    envC2.modBaseFromAddr 4128 = 4096 ∧
    envC2.modNameFromAddr 4112 = "m.dll" ∧
    pfind 2016 psC2 =
      some { mod := "n.dll", addr := 16, oldbyte := 3, newbyte := 4 } ∧
    "n.dll" ≠ "m.dll" ∧
    pfind 2016 (patchdelrange envC2 psC2 4112 4128 false).1 = none := by
  decide

/-- C2 (amended): after a non-wildcard `deleteRange(start, end, false)` whose
bounds resolve to the same module base B, no record of any module with
module-relative offset in the interval from start-B (inclusive) to end-B
(exclusive) remains, and every record whose offset is outside that interval
is left unchanged — the surviving-record criterion is offset-only and does
not spare records of other modules. -/
theorem C2_delrange_correct (env : Env) (ps : PatchesInfo) (startAddr endAddr : Nat)
    (hdbg : env.isDebugging = true)
    (hsame : env.modBaseFromAddr startAddr = env.modBaseFromAddr endAddr)
    (hnotall : ¬(startAddr = 0 ∧ endAddr = UINT_MAX)) :
    (∀ kp ∈ (patchdelrange env ps startAddr endAddr false).1,
        kp ∈ ps ∧
        ¬(usub startAddr (env.modBaseFromAddr startAddr) ≤ kp.2.addr ∧
          kp.2.addr < usub endAddr (env.modBaseFromAddr startAddr))) ∧
    (∀ kp ∈ ps,
        ¬(usub startAddr (env.modBaseFromAddr startAddr) ≤ kp.2.addr ∧
          kp.2.addr < usub endAddr (env.modBaseFromAddr startAddr)) →
        kp ∈ (patchdelrange env ps startAddr endAddr false).1) := by
  rw [patchdelrange_norestore env ps startAddr endAddr hdbg hsame hnotall]
  constructor
  · intro kp hkp
    rw [List.mem_filter] at hkp
    have h2 : kp.2.addr < usub startAddr (env.modBaseFromAddr startAddr) ∨
        usub endAddr (env.modBaseFromAddr startAddr) ≤ kp.2.addr := by
      simpa using hkp.2
    exact ⟨hkp.1, by omega⟩
  · intro kp hkp hout
    rw [List.mem_filter]
    refine ⟨hkp, ?_⟩
    have h2 : kp.2.addr < usub startAddr (env.modBaseFromAddr startAddr) ∨
        usub endAddr (env.modBaseFromAddr startAddr) ≤ kp.2.addr := by omega
    simpa using h2

/-- Witness for C2 at a concrete input. -/
theorem C2_delrange_correct_witness :
    (∀ kp ∈ (patchdelrange envC2 psC2 4112 4128 false).1,
        kp ∈ psC2 ∧
        ¬(usub 4112 (envC2.modBaseFromAddr 4112) ≤ kp.2.addr ∧
          kp.2.addr < usub 4128 (envC2.modBaseFromAddr 4112))) ∧
    (∀ kp ∈ psC2,
        ¬(usub 4112 (envC2.modBaseFromAddr 4112) ≤ kp.2.addr ∧
          kp.2.addr < usub 4128 (envC2.modBaseFromAddr 4112)) →
        kp ∈ (patchdelrange envC2 psC2 4112 4128 false).1) :=
  C2_delrange_correct envC2 psC2 4112 4128 rfl (by decide) (by decide)

/-- C4: the wildcard `deleteRange(0, maxAddress, true)` does empty the
ledger, but the restore write goes to the record's offset plus
`modbasefromaddr(0)` (here 0), not to the offset plus the record's own
module base: the byte 0x90 of "app.exe" (base 0x400000, offset 0x1000) is
written to address 0x1000 instead of 0x401000. -/
theorem C4_wildcard_restore_bug :
    (patchdelrange envC4 psC4 0 UINT_MAX true).1 = [] ∧
    (patchdelrange envC4 psC4 0 UINT_MAX true).2 = [(4096, 144)] ∧
    uadd 4096 (envC4.modBaseFromName "app.exe") = 4198400 ∧
    (4096 : Nat) ≠ 4198400 := by
  decide

/-- Witness for C1 at a concrete input: `set(100,1,2); set(100,2,3)` stores
original 1 and current 3. -/
theorem C1_chain_witness :
    ∃ r, pfind (envW.modHashFromVA 100)
        (runSets envW 100 ((1, 2) :: [(2, 3)]) []) = some r ∧
      r.oldbyte = 1 ∧ r.newbyte = ([(2, 3)].map Prod.snd).getLastD 2 :=
  C1_chain envW 100 1 2 [(2, 3)] [] rfl rfl (by decide) (by decide) rfl

/-- Witness for C5 at a concrete input. -/
theorem C5_selfundo_witness :
    (patchset envW (patchset envW [] 100 144 204).2 100 204 144).2 = [] ∧
    pfind (envW.modHashFromVA 100)
      (patchset envW (patchset envW [] 100 144 204).2 100 204 144).2 = none :=
  C5_selfundo envW [] 100 144 204 rfl rfl (by decide) rfl

/-- C3: the size-query phase of `patchenum` computes the byte size from
`sizeof(LOOPSINFO)` (the loop-bracket record) while the fill phase stores
PATCHINFO records: for a one-record ledger the reported size is
`1 * sizeofLOOPSINFO = 280`, not `1 * sizeofPATCHINFO = 272`, although the
fill call does return exactly one record. -/
theorem C3_enum_size_bug :
    patchenum envC4 psC4 false true = (true, some (1 * sizeofLOOPSINFO), []) ∧
    (patchenum envC4 psC4 true false).2.2.length = 1 ∧
    sizeofLOOPSINFO ≠ sizeofPATCHINFO := by
  decide

/-- A successful lookup's record is an entry of the ledger. -/
theorem pfind_mem (key : Nat) (v : PATCHINFO) (ps : PatchesInfo)
    (h : pfind key ps = some v) : (key, v) ∈ ps := by
  induction ps with
  | nil => simp [pfind] at h
  | cons hd rest ih =>
      obtain ⟨k, p⟩ := hd
      by_cases hk : k = key
      · simp [pfind, hk] at h
        simp [hk, h]
      · simp [pfind, hk] at h
        exact List.mem_cons_of_mem _ (ih h)

/-- Entries surviving `perase` were entries before. -/
theorem mem_perase (key : Nat) (ps : PatchesInfo) (kp : Nat × PATCHINFO)
    (h : kp ∈ perase key ps) : kp ∈ ps := by
  induction ps with
  | nil => simp [perase] at h
  | cons hd rest ih =>
      obtain ⟨k, p⟩ := hd
      by_cases hk : k = key
      · simp [perase, hk] at h
        exact List.mem_cons_of_mem _ h
      · simp [perase, hk, List.mem_cons] at h
        rcases h with h | h
        · simp [h]
        · exact List.mem_cons_of_mem _ (ih h)

/-- Entries after `pinsert` are the new pair or old entries. -/
theorem mem_pinsert (key : Nat) (v : PATCHINFO) (ps : PatchesInfo) (kp : Nat × PATCHINFO)
    (h : kp ∈ pinsert key v ps) : kp = (key, v) ∨ kp ∈ ps := by
  induction ps with
  | nil => simpa [pinsert] using h
  | cons hd rest ih =>
      obtain ⟨k, p⟩ := hd
      by_cases hlt : key < k
      · simp only [pinsert, if_pos hlt, List.mem_cons] at h
        simp only [List.mem_cons]
        tauto
      · simp only [pinsert, if_neg hlt, List.mem_cons] at h
        simp only [List.mem_cons]
        rcases h with h | h
        · tauto
        · rcases ih h with h2 | h2 <;> tauto

/-- Entries after `preplace` carry the new value or are old entries. -/
theorem mem_preplace (key : Nat) (v : PATCHINFO) (ps : PatchesInfo) (kp : Nat × PATCHINFO)
    (h : kp ∈ preplace key v ps) : kp.2 = v ∨ kp ∈ ps := by
  induction ps with
  | nil => simp [preplace] at h
  | cons hd rest ih =>
      obtain ⟨k, p⟩ := hd
      by_cases hk : k = key
      · simp only [preplace, if_pos hk, List.mem_cons] at h
        rcases h with h | h
        · left; rw [h]
        · right; exact List.mem_cons_of_mem _ h
      · simp only [preplace, if_neg hk, List.mem_cons] at h
        rcases h with h | h
        · right; simp [h]
        · rcases ih h with h2 | h2
          · exact Or.inl h2
          · exact Or.inr (List.mem_cons_of_mem _ h2)

/-- Entries surviving the range-delete loop were entries before. -/
theorem mem_delrangeLoop (b : Bool) (s e mb : Nat) (rst : Bool) (ps : PatchesInfo)
    (kp : Nat × PATCHINFO) (h : kp ∈ (delrangeLoop b s e mb rst ps).1) : kp ∈ ps := by
  induction ps with
  | nil => simp [delrangeLoop] at h
  | cons hd rest ih =>
      obtain ⟨k, p⟩ := hd
      by_cases hc : (b || (decide (s ≤ p.addr) && decide (p.addr < e))) = true
      · simp only [delrangeLoop, if_pos hc] at h
        exact List.mem_cons_of_mem _ (ih h)
      · simp only [delrangeLoop, if_neg hc, List.mem_cons] at h
        rcases h with h | h
        · simp [h]
        · exact List.mem_cons_of_mem _ (ih h)

/-- Entries surviving the clear loop were entries before. -/
theorem mem_clearLoop (m : String) (ps : PatchesInfo) (kp : Nat × PATCHINFO)
    (h : kp ∈ clearLoop m ps) : kp ∈ ps := by
  induction ps with
  | nil => simp [clearLoop] at h
  | cons hd rest ih =>
      obtain ⟨k, p⟩ := hd
      by_cases hc : striEq p.mod m = true
      · simp only [clearLoop, if_pos hc] at h
        exact List.mem_cons_of_mem _ (ih h)
      · simp only [clearLoop, if_neg hc, List.mem_cons] at h
        rcases h with h | h
        · simp [h]
        · exact List.mem_cons_of_mem _ (ih h)

/-- `patchset` preserves the original-differs-from-current invariant. -/
theorem patchset_wf (env : Env) (ps : PatchesInfo) (addr o n : Nat)
    (hwf : ledgerWF ps) : ledgerWF (patchset env ps addr o n).2 := by
  cases hc : (!env.isDebugging || !env.isReadable addr) with
  | true => simpa [patchset, hc] using hwf
  | false =>
      by_cases hon : o = n
      · simpa [patchset, hc, hon] using hwf
      · cases hfind : pfind (env.modHashFromVA addr) ps with
        | none =>
            have heq : (patchset env ps addr o n).2 =
                pinsert (env.modHashFromVA addr)
                  { mod := env.modNameFromAddr addr
                    addr := usub addr (env.modBaseFromAddr addr)
                    oldbyte := o
                    newbyte := n } ps := by
              simp [patchset, hc, hon, hfind]
            rw [heq]
            intro kp hkp
            rcases mem_pinsert _ _ _ _ hkp with h | h
            · rw [h]; exact hon
            · exact hwf kp h
        | some found =>
            by_cases hundo : found.oldbyte = n
            · have heq : (patchset env ps addr o n).2 =
                  perase (env.modHashFromVA addr) ps := by
                simp [patchset, hc, hon, hfind, hundo]
              rw [heq]
              intro kp hkp
              exact hwf kp (mem_perase _ _ _ hkp)
            · have heq : (patchset env ps addr o n).2 =
                  preplace (env.modHashFromVA addr)
                    { mod := env.modNameFromAddr addr
                      addr := usub addr (env.modBaseFromAddr addr)
                      oldbyte := found.oldbyte
                      newbyte := n } ps := by
                simp [patchset, hc, hon, hfind, hundo]
              rw [heq]
              intro kp hkp
              rcases mem_preplace _ _ _ _ hkp with h | h
              · rw [h]; exact hundo
              · exact hwf kp h

/-- `patchdel` preserves the invariant. -/
theorem patchdel_wf (env : Env) (ps : PatchesInfo) (addr : Nat) (rst : Bool)
    (hwf : ledgerWF ps) : ledgerWF (patchdel env ps addr rst).2.1 := by
  cases hc : env.isDebugging with
  | false => simpa [patchdel, hc] using hwf
  | true =>
      cases hfind : pfind (env.modHashFromVA addr) ps with
      | none => simpa [patchdel, hc, hfind] using hwf
      | some found =>
          have heq : (patchdel env ps addr rst).2.1 =
              perase (env.modHashFromVA addr) ps := by
            simp [patchdel, hc, hfind]
          rw [heq]
          intro kp hkp
          exact hwf kp (mem_perase _ _ _ hkp)

/-- `patchdelrange` preserves the invariant. -/
theorem patchdelrange_wf (env : Env) (ps : PatchesInfo) (s e : Nat) (rst : Bool)
    (hwf : ledgerWF ps) : ledgerWF (patchdelrange env ps s e rst).1 := by
  cases hc : env.isDebugging with
  | false => simpa [patchdelrange, hc] using hwf
  | true =>
      by_cases hbase : env.modBaseFromAddr s ≠ env.modBaseFromAddr e
      · simpa [patchdelrange, hc, hbase] using hwf
      · have heq : (patchdelrange env ps s e rst).1 =
            (delrangeLoop (decide (s = 0) && decide (e = UINT_MAX))
              (usub s (env.modBaseFromAddr s)) (usub e (env.modBaseFromAddr s))
              (env.modBaseFromAddr s) rst ps).1 := by
          simp [patchdelrange, hc, hbase]
        rw [heq]
        intro kp hkp
        exact hwf kp (mem_delrangeLoop _ _ _ _ _ _ _ hkp)

/-- `patchclear` preserves the invariant. -/
theorem patchclear_wf (ps : PatchesInfo) (modArg : Option String)
    (hwf : ledgerWF ps) : ledgerWF (patchclear ps modArg) := by
  cases modArg with
  | none => intro kp hkp; simp [patchclear] at hkp
  | some m =>
      by_cases hm : m = ""
      · intro kp hkp; simp [patchclear, hm] at hkp
      · have heq : patchclear ps (some m) = clearLoop m ps := by
          simp [patchclear, hm]
        rw [heq]
        intro kp hkp
        exact hwf kp (mem_clearLoop _ _ _ hkp)

/-- Every operation preserves the invariant. -/
theorem applyOp_wf (env : Env) (ps : PatchesInfo) (op : PatchOp)
    (hwf : ledgerWF ps) : ledgerWF (applyOp env ps op) := by
  cases op with
  | set a o n => exact patchset_wf env ps a o n hwf
  | del a r => exact patchdel_wf env ps a r hwf
  | delrange s e r => exact patchdelrange_wf env ps s e r hwf
  | clear m => exact patchclear_wf ps m hwf

/-- Every ledger reachable from the empty ledger satisfies the invariant. -/
theorem runOps_wf (env : Env) (ops : List PatchOp) : ledgerWF (runOps env ops) := by
  suffices h : ∀ ps, ledgerWF ps → ledgerWF (ops.foldl (applyOp env) ps) from
    h [] (by intro kp hkp; simp at hkp)
  induction ops with
  | nil => intro ps h; exact h
  | cons op rest ih => intro ps h; exact ih _ (applyOp_wf env ps op h)

/-- In query mode, `patchget` answers exactly key presence on a well-formed
ledger. -/
theorem patchget_query_iff (env : Env) (ps : PatchesInfo) (addr : Nat)
    (hdbg : env.isDebugging = true) (hwf : ledgerWF ps) :
    (patchget env ps addr false).1 = true ↔
      (pfind (env.modHashFromVA addr) ps).isSome := by
  cases hfind : pfind (env.modHashFromVA addr) ps with
  | none => simp [patchget, hdbg, hfind]
  | some found =>
      have hne : found.oldbyte ≠ found.newbyte := hwf _ (pfind_mem _ _ _ hfind)
      simp [patchget, hdbg, hfind, hne]

/-- C9: every record reachable through any sequence of set, delete,
deleteRange and clear operations from the empty ledger has
`originalByte ≠ currentByte`, and therefore `patchget` in query mode
reports a patch present exactly when a record exists at the key. -/
theorem C9_invariant_query (env : Env) (ops : List PatchOp) (addr : Nat)
    (hdbg : env.isDebugging = true) :
    (∀ kp ∈ runOps env ops, kp.2.oldbyte ≠ kp.2.newbyte) ∧
    ((patchget env (runOps env ops) addr false).1 = true ↔
      (pfind (env.modHashFromVA addr) (runOps env ops)).isSome) :=
  ⟨runOps_wf env ops, patchget_query_iff env _ addr hdbg (runOps_wf env ops)⟩

/-- Witness for C9 at a concrete input. -/
theorem C9_invariant_query_witness :
    (∀ kp ∈ runOps envW [PatchOp.set 100 1 2], kp.2.oldbyte ≠ kp.2.newbyte) ∧
    ((patchget envW (runOps envW [PatchOp.set 100 1 2]) 100 false).1 = true ↔
      (pfind (envW.modHashFromVA 100) (runOps envW [PatchOp.set 100 1 2])).isSome) :=
  C9_invariant_query envW [PatchOp.set 100 1 2] 100 rfl

/-- Case-insensitive equality to a common name is transitive. -/
theorem striEq_of_both (a b c : String) (hab : striEq a b = true)
    (hcb : striEq c b = true) : striEq a c = true := by
  simp only [striEq, beq_iff_eq] at hab hcb ⊢
  rw [hab, hcb]

/-- C6: when the record list contains two records whose module names differ
case-insensitively, `patchfile` returns the sentinel -1 having called
neither `CopyFileA` nor written any byte. -/
theorem C6_module_mismatch (env : FileEnv) (l : List PATCHINFO) (fn : String)
    (hasError : Bool) (a b : PATCHINFO) (ha : a ∈ l) (hb : b ∈ l)
    (hdiff : striEq a.mod b.mod = false) :
    (patchfile env l fn hasError).1 = -1 ∧
    copiesOf (patchfile env l fn hasError).2 = [] ∧
    writesOf (patchfile env l fn hasError).2 = [] := by
  cases l with
  | nil => cases ha
  | cons first rest =>
      have hany : ((first :: rest).any fun p => !striEq p.mod first.mod) = true := by
        rw [List.any_eq_true]
        by_cases h1 : striEq a.mod first.mod = true
        · refine ⟨b, hb, ?_⟩
          cases h2 : striEq b.mod first.mod with
          | false => rfl
          | true =>
              have h3 := striEq_of_both a.mod first.mod b.mod h1 h2
              rw [h3] at hdiff
              cases hdiff
        · refine ⟨a, ha, ?_⟩
          cases h2 : striEq a.mod first.mod with
          | false => rfl
          | true => exact absurd h2 h1
      have heq : patchfile env (first :: rest) fn hasError =
          (-1, errEff hasError ("not all patches are in module " ++ first.mod)) := by
        simp [patchfile, hany]
      rw [heq]
      cases hasError <;> simp [errEff, copiesOf, writesOf]

/-- Witness for C6 at a concrete input. -/
theorem C6_module_mismatch_witness :
    (patchfile envC7 [pC7a, pC6other] "patched.exe" true).1 = -1 ∧
    copiesOf (patchfile envC7 [pC7a, pC6other] "patched.exe" true).2 = [] ∧
    writesOf (patchfile envC7 [pC7a, pC6other] "patched.exe" true).2 = [] :=
  C6_module_mismatch envC7 [pC7a, pC6other] "patched.exe" true pC7a pC6other
    (by decide) (by decide) (by decide)

/-- The patch loop counts exactly the translatable records and writes
exactly their new bytes at the translated offsets. -/
theorem patchLoop_spec (env : FileEnv) (mb : Nat) (l : List PATCHINFO) :
    (patchLoop env mb l).1 =
      (l.filter (fun p => (env.convertVAtoFileOffset mb p.addr).isSome)).length ∧
    writesOf (patchLoop env mb l).2 =
      l.filterMap (fun p => (env.convertVAtoFileOffset mb p.addr).map
        (fun o => (o, p.newbyte))) := by
  induction l with
  | nil => exact ⟨rfl, rfl⟩
  | cons p rest ih =>
      cases hc : env.convertVAtoFileOffset mb p.addr with
      | none =>
          simp [patchLoop, hc, List.filter_cons, List.filterMap_cons, ih.1, ih.2]
      | some ofs =>
          simp [patchLoop, hc, List.filter_cons, List.filterMap_cons, writesOf, ih.1, ih.2]

/-- C7: on an accepted record list with a successful copy, load and unload,
a record whose virtual address translates to no raw file offset is skipped
without aborting the loop: the returned count is exactly the number of
translatable records, and exactly their current bytes are written at the
translated offsets. -/
theorem C7_skip_untranslatable (env : FileEnv) (first : PATCHINFO)
    (rest : List PATCHINFO) (fn : String) (hasError : Bool)
    (hsame : ∀ p ∈ first :: rest, striEq p.mod first.mod = true)
    (hbase : env.modBaseFromName first.mod ≠ 0)
    (origName : String)
    (hname : env.getModuleFileName (env.modBaseFromName first.mod) = some origName)
    (hcopy : env.copyFileOk = true)
    (hload : env.staticFileLoadOk = true)
    (hunload : env.staticFileUnloadOk = true) :
    (patchfile env (first :: rest) fn hasError).1 =
      Int.ofNat ((first :: rest).filter
        (fun p => (env.convertVAtoFileOffset (env.modBaseFromName first.mod) p.addr).isSome)).length ∧
    writesOf (patchfile env (first :: rest) fn hasError).2 =
      (first :: rest).filterMap
        (fun p => (env.convertVAtoFileOffset (env.modBaseFromName first.mod) p.addr).map
          (fun o => (o, p.newbyte))) := by
  have hany : ((first :: rest).any fun p => !striEq p.mod first.mod) = false := by
    rw [List.any_eq_false]
    intro p hp
    rw [hsame p hp]
    simp
  have heq : patchfile env (first :: rest) fn hasError =
      (Int.ofNat (patchLoop env (env.modBaseFromName first.mod) (first :: rest)).1,
        FileEffect.copyFile origName fn ::
          (patchLoop env (env.modBaseFromName first.mod) (first :: rest)).2) := by
    simp [patchfile, hany, hbase, hname, hcopy, hload, hunload]
  rw [heq]
  have hspec := patchLoop_spec env (env.modBaseFromName first.mod) (first :: rest)
  exact ⟨by rw [hspec.1], by simpa [writesOf] using hspec.2⟩

/-- Witness for C7 at a concrete input: of the two records one address is
untranslatable; the count is 1 and one byte is written. -/
theorem C7_skip_untranslatable_witness :
    (patchfile envC7 (pC7a :: [pC7b]) "patched.exe" true).1 =
      Int.ofNat ((pC7a :: [pC7b]).filter
        (fun p => (envC7.convertVAtoFileOffset (envC7.modBaseFromName pC7a.mod) p.addr).isSome)).length ∧
    writesOf (patchfile envC7 (pC7a :: [pC7b]) "patched.exe" true).2 =
      (pC7a :: [pC7b]).filterMap
        (fun p => (envC7.convertVAtoFileOffset (envC7.modBaseFromName pC7a.mod) p.addr).map
          (fun o => (o, p.newbyte))) :=
  C7_skip_untranslatable envC7 pC7a [pC7b] "patched.exe" true (by decide)
    (by decide) "app.exe.path" (by decide) rfl rfl rfl

/-- C10: on the `StaticFileLoad` failure path the source writes the error
message without the `if(error)` null check used on every other path: with a
null error buffer the call still performs the message write through the
null pointer (after having made the file copy). -/
theorem C10_null_error_bug :
    patchfile envC10
        [{ mod := "app.exe", addr := 4194314, oldbyte := 1, newbyte := 2 }]
        "patched.exe" false =
      (-1, [FileEffect.copyFile "app.exe.path" "patched.exe",
            FileEffect.nullErrorWrite "StaticFileLoad failed"]) := by
  decide

end Patches
